import Mathlib

set_option maxHeartbeats 1000000
set_option maxRecDepth 8000

/-!
Shallow embedding of the stacked denoising autoencoder trainer in
`code/SdA.py`: the per-layer parameter model, the tied-weight decode view,
the fine-tuning joint update, the greedy layer-wise pretraining schedule,
the early-stopping controller and the fine-tuning loop (with its per-epoch
`break`), the minibatch partitioning arithmetic, the real-valued
autoencoder forward/loss graph and the logistic-regression error metric.
Gradient computation is treated as an oracle, as the specification's scope
prescribes; stochastic corruption masks are explicit inputs.
-/

/-- Apply `f` to every list element together with its position, starting the
position count at `k`.  `mapIdxFrom f 0 l` models applying a Theano update
dictionary over the indexed family of per-layer shared variables. -/
def mapIdxFrom {β : Type} (f : ℕ → β → β) : ℕ → List β → List β
  | _, [] => []
  | k, x :: xs => f k x :: mapIdxFrom f (k + 1) xs

/-- Parameters owned by one denoising autoencoder layer (`dA.__init__`):
encode weights `W`, encode bias `b`, decode bias `b_prime`.  There is no
stored decode weight matrix: `W_prime` is the derived view `dAWprime`. -/
structure DAParams (α : Type) where
  W : ℕ → ℕ → α
  b : ℕ → α
  b_prime : ℕ → α

/-- Zero-filled layer parameters, used as the out-of-range default. -/
def daZero (α : Type) [Zero α] : DAParams α :=
  { W := fun _ _ => 0, b := fun _ => 0, b_prime := fun _ => 0 }

/-- Tied decode weights (`self.W_prime = self.W.T`): the transpose of the
current encode matrix, computed on demand, never stored. -/
def dAWprime {α : Type} (p : DAParams α) : ℕ → ℕ → α := fun i j => p.W j i

/-- The whole stacked model's mutable parameter set: the autoencoder layers
in stack order plus the logistic (classification) layer's `W` and `b`. -/
structure SdAParams (α : Type) where
  layers : List (DAParams α)
  logW : ℕ → ℕ → α
  logb : ℕ → α

/-- Gradient oracle for fine-tuning: `T.grad(cost, param)` for every layer's
`W`/`b` and the logistic layer's `W`/`b`, as a function of the layer index,
the minibatch index and the current parameters. -/
structure FineGrads (α : Type) where
  gW : ℕ → ℕ → SdAParams α → ℕ → ℕ → α
  gb : ℕ → ℕ → SdAParams α → ℕ → α
  gLogW : ℕ → SdAParams α → ℕ → ℕ → α
  gLogb : ℕ → SdAParams α → ℕ → α

/-- One fine-tuning minibatch step (`train_model`): the simultaneous update
dictionary of SdA.py lines 429-443.  Every layer's `W` and `b` and the
logistic layer's `W` and `b` move by `- learning_rate * grad`, all gradients
taken at the same old parameters; `b_prime` is not in the dictionary. -/
def fineTuneStep {α : Type} [Ring α] (g : FineGrads α) (learning_rate : α)
    (m : ℕ) (p : SdAParams α) : SdAParams α :=
  { layers := mapIdxFrom (fun i L =>
      { W := fun r c => L.W r c - learning_rate * g.gW i m p r c
        b := fun j => L.b j - learning_rate * g.gb i m p j
        b_prime := L.b_prime }) 0 p.layers
    logW := fun r c => p.logW r c - learning_rate * g.gLogW m p r c
    logb := fun j => p.logb j - learning_rate * g.gLogb m p j }

/-- Gradient oracle for pretraining: `T.grad` of layer `i`'s reconstruction
cost with respect to that layer's own `W`, `b` and `b_prime`. -/
structure PreGrads (α : Type) where
  gW : ℕ → ℕ → SdAParams α → ℕ → ℕ → α
  gb : ℕ → ℕ → SdAParams α → ℕ → α
  gb_prime : ℕ → ℕ → SdAParams α → ℕ → α

/-- One pretraining minibatch step for layer `i` (`layer_update`): the update
dictionary of SdA.py lines 392-396 touches only layer `i`'s `W`, `b` and
`b_prime`, each moved by `- grad * pretraining_lr`. -/
def pretrainStep {α : Type} [Ring α] (g : PreGrads α) (pretraining_lr : α)
    (i m : ℕ) (p : SdAParams α) : SdAParams α :=
  { p with layers := mapIdxFrom (fun j L =>
      if j = i then
        { W := fun r c => L.W r c - g.gW i m p r c * pretraining_lr
          b := fun h => L.b h - g.gb i m p h * pretraining_lr
          b_prime := fun k => L.b_prime k - g.gb_prime i m p k * pretraining_lr }
      else L) 0 p.layers }

/-- The full pretraining pass over layer `i`: `pretraining_epochs` epochs,
each sweeping the training minibatches in index order. -/
def pretrainPhase {α : Type} [Ring α] (g : PreGrads α) (pretraining_lr : α)
    (epochs nBatches i : ℕ) (p : SdAParams α) : SdAParams α :=
  (List.range epochs).foldl (fun q _ =>
    (List.range nBatches).foldl (fun r m => pretrainStep g pretraining_lr i m r) q) p

/-- Greedy layer-wise pretraining of layers `0 .. k-1` in stack order. -/
def pretrainUpTo {α : Type} [Ring α] (g : PreGrads α) (pretraining_lr : α)
    (epochs nBatches k : ℕ) (p : SdAParams α) : SdAParams α :=
  (List.range k).foldl (fun q i => pretrainPhase g pretraining_lr epochs nBatches i q) p

/-- The whole pretraining driver (`for i in xrange(classifier.n_layers)`). -/
def pretrainAll {α : Type} [Ring α] (g : PreGrads α) (pretraining_lr : α)
    (epochs nBatches nLayers : ℕ) (p : SdAParams α) : SdAParams α :=
  pretrainUpTo g pretraining_lr epochs nBatches nLayers p

/-- `batch_size = 20` (SdA.py line 344). -/
def batch_size : ℕ := 20

/-- Number of minibatches of a partition with `n` examples:
`shape[0] / batch_size` with Python integer (floor) division. -/
def n_batches (n : ℕ) : ℕ := n / batch_size

/-- The example indices read by minibatch `i`:
`index*batch_size : (index+1)*batch_size`. -/
def batchSlice (i : ℕ) : List ℕ :=
  (List.range batch_size).map (fun r => i * batch_size + r)

/-- All example indices any minibatch of an `n`-example partition reads. -/
def usedIndices (n : ℕ) : List ℕ :=
  ((List.range (n_batches n)).map batchSlice).flatten

/-- `patience = 10000` (SdA.py line 454). -/
def patience_init : ℕ := 10000

/-- `patience_increase = 2`. -/
def patience_increase : ℕ := 2

/-- `improvement_threshold = 0.995`. -/
def improvement_threshold : ℚ := 995 / 1000

/-- `validation_frequency = min(n_train_batches, patience/2)`, computed once
with the initial patience. -/
def validation_frequency (nTrainBatches : ℕ) : ℕ :=
  min nTrainBatches (patience_init / 2)

/-- Early-stopping controller state: `best_validation_loss` is `none` while
still at its float `inf` initialisation. -/
structure ESState where
  patience : ℕ
  best_validation_loss : Option ℚ
  best_iter : Option ℕ
  test_score : ℚ
deriving DecidableEq

/-- The controller state before the fine-tuning loop starts. -/
def esInit : ESState := { patience := patience_init, best_validation_loss := none
                          best_iter := none, test_score := 0 }

/-- `this_validation_loss < best_validation_loss`, with `none` as `+inf`. -/
def vBetter (v : ℚ) : Option ℚ → Bool
  | none => true
  | some b => decide (v < b)

/-- `this_validation_loss < best_validation_loss * improvement_threshold`,
with `none` as `+inf` (a finite value is below `inf * 0.995 = inf`). -/
def vSignif (v : ℚ) : Option ℚ → Bool
  | none => true
  | some b => decide (v < b * improvement_threshold)

/-- One invocation of the early-stopping controller (SdA.py lines 489-502)
at global iteration `iter`, mean validation error `v`, and `testv` the mean
test error over the test minibatches at the current parameters. -/
def earlyStopUpdate (iter : ℕ) (v testv : ℚ) (s : ESState) : ESState :=
  if vBetter v s.best_validation_loss then
    let s1 := if vSignif v s.best_validation_loss then
                { s with patience := max s.patience (iter * patience_increase) }
              else s
    { s1 with best_validation_loss := some v, best_iter := some iter
              test_score := testv }
  else s

/-- `numpy.mean` of a list of rationals. -/
def qmean (l : List ℚ) : ℚ := l.sum / l.length

/-- The training dynamics the loop drives, abstracting the compiled Theano
functions: `trainStep m` is the parameter update `train_model(m)` performs,
`validBatchLoss θ i` is `validate_model(i)` at parameters `θ`, and
`testBatchLoss θ i` is `test_model(i)`. -/
structure Dyn (Θ : Type) where
  trainStep : ℕ → Θ → Θ
  validBatchLoss : Θ → ℕ → ℚ
  testBatchLoss : Θ → ℕ → ℚ

/-- Fine-tuning loop state: the model parameters, the controller state, and
a ghost log recording the `iter` value of every `train_model` call made. -/
structure FTState (Θ : Type) where
  θ : Θ
  es : ESState
  updLog : List ℕ
deriving DecidableEq

/-- The body of the inner fine-tuning loop for one minibatch (SdA.py lines
474-506): call `train_model`, then when `(iter+1) % validation_frequency == 0`
compute the mean validation error at the new parameters and invoke the
controller, handing it the mean test error at those parameters. -/
def ftBody {Θ : Type} (D : Dyn Θ) (nTrainB nValidB nTestB epoch m : ℕ)
    (s : FTState Θ) : FTState Θ :=
  let θ2 := D.trainStep m s.θ
  let iter := epoch * nTrainB + m
  if (iter + 1) % validation_frequency nTrainB = 0 then
    { θ := θ2
      es := earlyStopUpdate iter
              (qmean ((List.range nValidB).map (D.validBatchLoss θ2)))
              (qmean ((List.range nTestB).map (D.testBatchLoss θ2)))
              s.es
      updLog := s.updLog ++ [iter] }
  else { θ := θ2, es := s.es, updLog := s.updLog ++ [iter] }

/-- One epoch of fine-tuning over the listed minibatch indices.  Faithful to
the source: `if patience <= iter: break` at SdA.py lines 509-510 is checked
after every minibatch and exits only this inner loop. -/
def ftEpoch {Θ : Type} (D : Dyn Θ) (nTrainB nValidB nTestB epoch : ℕ) :
    List ℕ → FTState Θ → FTState Θ
  | [], s => s
  | m :: ms, s =>
    let s2 := ftBody D nTrainB nValidB nTestB epoch m s
    if s2.es.patience ≤ epoch * nTrainB + m then s2
    else ftEpoch D nTrainB nValidB nTestB epoch ms s2

/-- The whole fine-tuning driver: `for epoch in xrange(training_epochs)`
around the per-epoch minibatch loop.  The outer loop has no break. -/
def ftRun {Θ : Type} (D : Dyn Θ) (nTrainB nValidB nTestB trainingEpochs : ℕ)
    (θ0 : Θ) : FTState Θ :=
  (List.range trainingEpochs).foldl
    (fun s e => ftEpoch D nTrainB nValidB nTestB e (List.range nTrainB) s)
    { θ := θ0, es := esInit, updLog := [] }

/-- The driver as `sgd_optimization_mnist` wires it: minibatch counts are
the floor-divided partition sizes (SdA.py lines 347-349). -/
def sgd_fineTune {Θ : Type} (D : Dyn Θ) (nTrainEx nValidEx nTestEx
    trainingEpochs : ℕ) (θ0 : Θ) : FTState Θ :=
  ftRun D (n_batches nTrainEx) (n_batches nValidEx) (n_batches nTestEx)
    trainingEpochs θ0

/-- A trivial training dynamics used to evaluate the loop shape: parameters
count the updates applied, every validation batch scores 1, every test
batch 0. -/
def countingDyn : Dyn ℕ :=
  { trainStep := fun _ n => n + 1
    validBatchLoss := fun _ _ => 1
    testBatchLoss := fun _ _ => 0 }

/-- The controller state after `countingDyn`'s first validation: the first
mean loss 1 beats `inf`, is significant, and `max 10000 0` leaves patience
at 10000. -/
def esAfterFirst : ESState := { patience := patience_init
                                best_validation_loss := some 1
                                best_iter := some 0, test_score := 0 }

noncomputable section

/-- `T.nnet.sigmoid`. -/
def sigmoid (t : ℝ) : ℝ := 1 / (1 + Real.exp (-t))

/-- The dot product of length-`n` vectors stored as functions. -/
def dotR (n : ℕ) (u v : ℕ → ℝ) : ℝ := ∑ k ∈ Finset.range n, u k * v k

/-- Specification-side `corrupt`: elementwise Bernoulli zeroing, with the
random draw made explicit as a 0/1 mask (`theano_rng.binomial(...) * x`). -/
def corrupt (mask x : ℕ → ℝ) : ℕ → ℝ := fun k => mask k * x k

/-- Specification-side `encode(x) = sigmoid(x · W + b)`. -/
def encode (n_visible : ℕ) (p : DAParams ℝ) (x : ℕ → ℝ) : ℕ → ℝ :=
  fun j => sigmoid (dotR n_visible x (fun k => p.W k j) + p.b j)

/-- Specification-side `decode(y) = sigmoid(y · W_prime + b_prime)` with
`W_prime = transpose(W)`. -/
def decode (n_hidden : ℕ) (p : DAParams ℝ) (y : ℕ → ℝ) : ℕ → ℝ :=
  fun k => sigmoid (dotR n_hidden y (fun j => p.W k j) + p.b_prime k)

/-- Per-example summed binary cross-entropy
`-Σ_k (x_k log z_k + (1-x_k) log(1-z_k))`. -/
def bce (n_visible : ℕ) (x z : ℕ → ℝ) : ℝ :=
  -(∑ k ∈ Finset.range n_visible, (x k * Real.log (z k)
      + (1 - x k) * Real.log (1 - z k)))

/-- `numpy`/Theano mean of a list of reals. -/
def rmean (l : List ℝ) : ℝ := l.sum / l.length

/-- The symbolic expressions `dA.__init__` attaches to one layer, evaluated
at one example: the clean input `x`, corrupted input `tilde_x`, the training
code `y`, reconstruction `z`, per-example loss `L`, and the clean
`hidden_values` the stacking uses. -/
structure DAGraph where
  x : ℕ → ℝ
  tilde_x : ℕ → ℝ
  y : ℕ → ℝ
  z : ℕ → ℝ
  L : ℝ
  hidden_values : ℕ → ℝ

/-- `dA.__init__` (SdA.py lines 202-220) on one example `x` with corruption
mask `mask`: equations (1)-(4) of the source plus `hidden_values`. -/
def dA_mk (n_visible n_hidden : ℕ) (p : DAParams ℝ) (mask x : ℕ → ℝ) :
    DAGraph :=
  let tx : ℕ → ℝ := fun k => mask k * x k
  let y : ℕ → ℝ := fun j => sigmoid (dotR n_visible tx (fun k => p.W k j) + p.b j)
  let z : ℕ → ℝ := fun k => sigmoid (dotR n_hidden y (fun j => dAWprime p j k)
                              + p.b_prime k)
  { x := x
    tilde_x := tx
    y := y
    z := z
    L := -(∑ k ∈ Finset.range n_visible,
            (x k * Real.log (z k) + (1 - x k) * Real.log (1 - z k)))
    hidden_values := fun j => sigmoid (dotR n_visible x (fun k => p.W k j)
                                + p.b j) }

/-- `self.cost = T.mean(self.L)`: the batch is a list of (mask, example)
pairs, one fresh mask per example. -/
def dA_cost (n_visible n_hidden : ℕ) (p : DAParams ℝ)
    (batch : List ((ℕ → ℝ) × (ℕ → ℝ))) : ℝ :=
  rmean (batch.map (fun em => (dA_mk n_visible n_hidden p em.1 em.2).L))

/-- Specification-side `reconstruction_loss`: mean over the batch of the
per-example summed binary cross-entropy against the uncorrupted input,
where `z = decode(encode_corrupted(x))`. -/
def reconstruction_loss (n_visible n_hidden : ℕ) (p : DAParams ℝ)
    (batch : List ((ℕ → ℝ) × (ℕ → ℝ))) : ℝ :=
  rmean (batch.map (fun em =>
    bce n_visible em.2 (decode n_hidden p (encode n_visible p (corrupt em.1 em.2)))))

/-- What `SdA.__init__` passes to one `dA` constructor: the layer's sizes,
its parameters, and its corruption mask draw. -/
structure LayerSpec where
  n_visible : ℕ
  n_hidden : ℕ
  params : DAParams ℝ
  mask : ℕ → ℝ

/-- The layer chain `SdA.__init__` builds (SdA.py lines 257-270): the first
`dA` reads the model input, each later `dA` reads the previous layer's
`hidden_values`. -/
def sdaChain (x0 : ℕ → ℝ) : List LayerSpec → List DAGraph
  | [] => []
  | s :: rest =>
    dA_mk s.n_visible s.n_hidden s.params s.mask x0 ::
      sdaChain (dA_mk s.n_visible s.n_hidden s.params s.mask x0).hidden_values rest

/-- Specification-side forward pass: `forward_0(x) = x`, and the clean
hidden representation at each layer is `encode` of the previous one. -/
def forwardSpec (x : ℕ → ℝ) : List LayerSpec → (ℕ → ℝ)
  | [] => x
  | s :: rest => forwardSpec (encode s.n_visible s.params x) rest

/-- An arbitrary layer graph, the out-of-range default for `List.getD`. -/
def junkGraph : DAGraph := dA_mk 0 0 (daZero ℝ) (fun _ => 0) (fun _ => 0)

/-- An arbitrary layer description, the out-of-range default. -/
def junkSpec : LayerSpec :=
  { n_visible := 0, n_hidden := 0, params := daZero ℝ, mask := fun _ => 0 }

/-- The input `SdA.__init__` gives the logistic layer:
`self.layers[-1].hidden_values` (SdA.py lines 283-285). -/
def sdaLogInput (x0 : ℕ → ℝ) (specs : List LayerSpec) : ℕ → ℝ :=
  ((sdaChain x0 specs).getLastD junkGraph).hidden_values

/-- `T.nnet.softmax` applied to one row of logits. -/
def softmaxRow (n : ℕ) (v : ℕ → ℝ) : ℕ → ℝ :=
  fun c => Real.exp (v c) / ∑ k ∈ Finset.range n, Real.exp (v k)

/-- `T.argmax` over positions `0 .. n-1`: the first index attaining the
maximum. -/
def argmaxRange (n : ℕ) (f : ℕ → ℝ) : ℕ :=
  (List.range n).foldl (fun best c => if f best < f c then c else best) 0

/-- `LogisticRegression.p_y_given_x = softmax(x·W + b)` on one example. -/
def p_y_given_x (n_in n_out : ℕ) (W : ℕ → ℕ → ℝ) (b : ℕ → ℝ) (x : ℕ → ℝ) :
    ℕ → ℝ :=
  softmaxRow n_out (fun c => dotR n_in x (fun k => W k c) + b c)

/-- `LogisticRegression.y_pred = argmax(p_y_given_x, axis=1)` on one
example. -/
def y_pred (n_in n_out : ℕ) (W : ℕ → ℕ → ℝ) (b : ℕ → ℝ) (x : ℕ → ℝ) : ℕ :=
  argmaxRange n_out (p_y_given_x n_in n_out W b x)

/-- The error outcomes of `LogisticRegression.errors`, named as the
specification's taxonomy names them: `UnsupportedLabelType` is the source's
`NotImplementedError` for a non-integer label dtype, `ShapeMismatch` the
shape failure when the label vector's length differs from the batch size. -/
inductive LRError where
  | ShapeMismatch
  | UnsupportedLabelType
deriving DecidableEq

/-- A Theano label vector: its dtype tag and its values. -/
structure LabelVec where
  dtypeIsInt : Bool
  vals : List ℤ

/-- `LogisticRegression.errors` (SdA.py lines 93-109): the dtype is examined
when the graph is built, the elementwise `T.neq` enforces equal lengths when
the compiled function runs, and the result is `T.mean(T.neq(y_pred, y))`. -/
def LR_errors (n_in n_out : ℕ) (W : ℕ → ℕ → ℝ) (b : ℕ → ℝ)
    (X : List (ℕ → ℝ)) (yv : LabelVec) : Except LRError ℝ :=
  if yv.dtypeIsInt = false then .error .UnsupportedLabelType
  else if yv.vals.length ≠ X.length then .error .ShapeMismatch
  else .ok (rmean (List.zipWith
    (fun x yi => if (y_pred n_in n_out W b x : ℤ) ≠ yi then (1 : ℝ) else 0)
    X yv.vals))

/-- Specification-side `error_rate(x, y) = mean_i 1[argmax p(.|x_i) ≠ y_i]`. -/
def error_rate_spec (n_in n_out : ℕ) (W : ℕ → ℕ → ℝ) (b : ℕ → ℝ)
    (X : List (ℕ → ℝ)) (ys : List ℤ) : ℝ :=
  rmean (List.zipWith
    (fun x yi =>
      if (argmaxRange n_out (p_y_given_x n_in n_out W b x) : ℤ) ≠ yi
      then (1 : ℝ) else 0)
    X ys)

end

/-- The construction failure of `SdA.__init__`, as the specification's
taxonomy names it. -/
inductive SdAError where
  | ConfigurationError
deriving DecidableEq

/-- The shape of `SdA.__init__` (SdA.py lines 252-285): refuse an empty
hidden-layer list, otherwise build the chain of layer sizes (each layer's
input size is the previous layer's hidden size) and top it with a logistic
layer reading the last hidden size. -/
def SdA_init (n_ins : ℕ) (hidden_layers_sizes : List ℕ) (n_outs : ℕ) :
    Except SdAError (List (ℕ × ℕ) × ℕ × ℕ) :=
  if hidden_layers_sizes.length < 1 then .error .ConfigurationError
  else .ok ((n_ins :: hidden_layers_sizes).zip hidden_layers_sizes,
            (hidden_layers_sizes.getLastD 0, n_outs))

/-- A concrete layer used by witnesses. -/
def wLayerQ : DAParams ℚ :=
  { W := fun r c => (r : ℚ) + c, b := fun j => (j : ℚ), b_prime := fun k => (k : ℚ) + 1 }

/-- A concrete two-layer stacked parameter set used by witnesses. -/
def wParamsQ : SdAParams ℚ :=
  { layers := [wLayerQ, wLayerQ], logW := fun _ _ => 2, logb := fun _ => 3 }

/-- A concrete fine-tuning gradient oracle used by witnesses. -/
def wFineG : FineGrads ℚ :=
  { gW := fun _ _ _ _ _ => 1, gb := fun _ _ _ _ => 1
    gLogW := fun _ _ _ _ => 1, gLogb := fun _ _ _ => 1 }

/-- A concrete pretraining gradient oracle used by witnesses. -/
def wPreG : PreGrads ℚ :=
  { gW := fun _ _ _ _ _ => 1, gb := fun _ _ _ _ => 1, gb_prime := fun _ _ _ _ => 1 }

/-- A concrete layer description used by witnesses. -/
noncomputable def wSpecA : LayerSpec :=
  { n_visible := 2, n_hidden := 2, params := daZero ℝ, mask := fun _ => 1 }

/-- A concrete two-layer stack description used by witnesses. -/
noncomputable def wSpecs : List LayerSpec := [wSpecA, wSpecA]

/-- A concrete input vector used by witnesses. -/
noncomputable def wx0 : ℕ → ℝ := fun _ => 0

/-- A concrete label vector used by witnesses. -/
def wLabels : LabelVec := { dtypeIsInt := true, vals := [0] }

theorem mapIdxFrom_length {β : Type} (f : ℕ → β → β) (k : ℕ) (l : List β) :
    (mapIdxFrom f k l).length = l.length := by
  induction l generalizing k with
  | nil => rfl
  | cons a t ih => simp [mapIdxFrom, ih]

theorem getD_mapIdxFrom {β : Type} (f : ℕ → β → β) (k : ℕ) (l : List β)
    (n : ℕ) (z : β) :
    (mapIdxFrom f k l).getD n z =
      if n < l.length then f (k + n) (l.getD n z) else z := by
  induction l generalizing k n with
  | nil => simp [mapIdxFrom]
  | cons a t ih =>
    cases n with
    | zero => simp [mapIdxFrom]
    | succ n =>
      rw [mapIdxFrom, List.getD_cons_succ, ih (k + 1) n, List.getD_cons_succ,
          List.length_cons, show k + 1 + n = k + (n + 1) from by omega]
      exact if_congr (by omega) rfl rfl

/-- C3: a single fine-tuning minibatch step updates every autoencoder
layer's `W` and `b` and the classifier's `W` and `b` simultaneously in one
joint update, each entry moving by `- learning_rate * grad` with all
gradients taken at the same pre-step parameters, and leaves every layer's
decode bias `b_prime` unchanged. -/
theorem finetune_joint_update {α : Type} [Ring α] (g : FineGrads α)
    (learning_rate : α) (m : ℕ) (p : SdAParams α) (i : ℕ)
    (h : i < p.layers.length) :
    (fineTuneStep g learning_rate m p).layers.getD i (daZero α) =
      { W := fun r c => (p.layers.getD i (daZero α)).W r c
                 - learning_rate * g.gW i m p r c
        b := fun j => (p.layers.getD i (daZero α)).b j
                 - learning_rate * g.gb i m p j
        b_prime := (p.layers.getD i (daZero α)).b_prime } ∧
    (fineTuneStep g learning_rate m p).logW =
      (fun r c => p.logW r c - learning_rate * g.gLogW m p r c) ∧
    (fineTuneStep g learning_rate m p).logb =
      (fun j => p.logb j - learning_rate * g.gLogb m p j) := by
  refine ⟨?_, rfl, rfl⟩
  unfold fineTuneStep
  rw [getD_mapIdxFrom, if_pos h, Nat.zero_add]

/-- Witness for `finetune_joint_update` at a concrete two-layer model. -/
theorem finetune_joint_update_witness :
    (1 < wParamsQ.layers.length) ∧
    ((fineTuneStep wFineG (1 / 10) 0 wParamsQ).layers.getD 1 (daZero ℚ) =
      { W := fun r c => (wParamsQ.layers.getD 1 (daZero ℚ)).W r c
                 - (1 / 10) * wFineG.gW 1 0 wParamsQ r c
        b := fun j => (wParamsQ.layers.getD 1 (daZero ℚ)).b j
                 - (1 / 10) * wFineG.gb 1 0 wParamsQ j
        b_prime := (wParamsQ.layers.getD 1 (daZero ℚ)).b_prime } ∧
     (fineTuneStep wFineG (1 / 10) 0 wParamsQ).logW =
       (fun r c => wParamsQ.logW r c - (1 / 10) * wFineG.gLogW 0 wParamsQ r c) ∧
     (fineTuneStep wFineG (1 / 10) 0 wParamsQ).logb =
       (fun j => wParamsQ.logb j - (1 / 10) * wFineG.gLogb 0 wParamsQ j)) :=
  ⟨by decide, finetune_joint_update wFineG (1 / 10) 0 wParamsQ 1 (by decide)⟩

theorem pretrainStep_frame {α : Type} [Ring α] (g : PreGrads α)
    (pretraining_lr : α) (i j m : ℕ) (p : SdAParams α) (h : j ≠ i) :
    (pretrainStep g pretraining_lr i m p).layers.getD j (daZero α) =
      p.layers.getD j (daZero α) := by
  unfold pretrainStep
  rw [getD_mapIdxFrom]
  by_cases hj : j < p.layers.length
  · rw [if_pos hj, Nat.zero_add, if_neg h]
  · rw [if_neg hj, List.getD_eq_default _ _ (Nat.le_of_not_lt hj)]

theorem foldl_pretrainStep_frame {α : Type} [Ring α] (g : PreGrads α)
    (pretraining_lr : α) (i j : ℕ) (h : j ≠ i) (ms : List ℕ)
    (p : SdAParams α) :
    ((ms.foldl (fun r m => pretrainStep g pretraining_lr i m r) p).layers.getD
        j (daZero α)) = p.layers.getD j (daZero α) := by
  induction ms generalizing p with
  | nil => rfl
  | cons a t ih =>
    rw [List.foldl_cons, ih, pretrainStep_frame g pretraining_lr i j a p h]

theorem pretrainPhase_frame {α : Type} [Ring α] (g : PreGrads α)
    (pretraining_lr : α) (epochs nBatches i j : ℕ) (h : j ≠ i)
    (p : SdAParams α) :
    (pretrainPhase g pretraining_lr epochs nBatches i p).layers.getD j
        (daZero α) = p.layers.getD j (daZero α) := by
  unfold pretrainPhase
  generalize List.range epochs = l
  induction l generalizing p with
  | nil => rfl
  | cons a t ih =>
    rw [List.foldl_cons, ih, foldl_pretrainStep_frame g pretraining_lr i j h]

theorem pretrainUpTo_succ {α : Type} [Ring α] (g : PreGrads α)
    (pretraining_lr : α) (epochs nBatches k : ℕ) (p : SdAParams α) :
    pretrainUpTo g pretraining_lr epochs nBatches (k + 1) p =
      pretrainPhase g pretraining_lr epochs nBatches k
        (pretrainUpTo g pretraining_lr epochs nBatches k p) := by
  unfold pretrainUpTo
  rw [List.range_succ, List.foldl_append, List.foldl_cons, List.foldl_nil]

theorem pretrainUpTo_frame_beyond {α : Type} [Ring α] (g : PreGrads α)
    (pretraining_lr : α) (epochs nBatches i j d : ℕ) (hj : j < i)
    (p : SdAParams α) :
    (pretrainUpTo g pretraining_lr epochs nBatches (i + d) p).layers.getD j
        (daZero α) =
      (pretrainUpTo g pretraining_lr epochs nBatches i p).layers.getD j
        (daZero α) := by
  induction d with
  | zero => rfl
  | succ d ih =>
    rw [show i + (d + 1) = (i + d) + 1 from rfl, pretrainUpTo_succ,
        pretrainPhase_frame g pretraining_lr epochs nBatches (i + d) j
          (by omega), ih]

/-- C4: a pretraining gradient step for layer `i` updates only that layer's
own `W`, `b` and `b_prime`, each entry moving by `- pretraining_lr * grad`,
leaving every other layer `j ≠ i` — earlier and later alike — and the
classification layer untouched; and because layers are pretrained strictly
in stack order, every layer `j < i` already holds its final pretrained
parameters when layer `i`'s phase starts, so the input fed to layer `i` is
computed with those final parameters. -/
theorem pretrain_layer_local_and_ordered {α : Type} [CommRing α]
    (g : PreGrads α) (pretraining_lr : α) (epochs nBatches nLayers i j m : ℕ)
    (p : SdAParams α) (hne : j ≠ i) (hinL : i ≤ nLayers)
    (hlen : i < p.layers.length) :
    (pretrainStep g pretraining_lr i m p).layers.getD j (daZero α) =
        p.layers.getD j (daZero α) ∧
    (pretrainStep g pretraining_lr i m p).logW = p.logW ∧
    (pretrainStep g pretraining_lr i m p).logb = p.logb ∧
    (pretrainStep g pretraining_lr i m p).layers.getD i (daZero α) =
      { W := fun r c => (p.layers.getD i (daZero α)).W r c
                 - pretraining_lr * g.gW i m p r c
        b := fun h2 => (p.layers.getD i (daZero α)).b h2
                 - pretraining_lr * g.gb i m p h2
        b_prime := fun k => (p.layers.getD i (daZero α)).b_prime k
                 - pretraining_lr * g.gb_prime i m p k } ∧
    (j < i →
      (pretrainUpTo g pretraining_lr epochs nBatches i p).layers.getD j
          (daZero α) =
        (pretrainAll g pretraining_lr epochs nBatches nLayers p).layers.getD j
          (daZero α)) := by
  refine ⟨pretrainStep_frame g pretraining_lr i j m p hne, rfl, rfl,
    ?_, fun hji => ?_⟩
  · unfold pretrainStep
    rw [getD_mapIdxFrom, if_pos hlen, Nat.zero_add, if_pos rfl]
    congr 1 <;> funext <;> ring
  · unfold pretrainAll
    rw [show nLayers = i + (nLayers - i) from by omega,
        pretrainUpTo_frame_beyond g pretraining_lr epochs nBatches i j
          (nLayers - i) hji p]

/-- Witness for `pretrain_layer_local_and_ordered`: layer 1 of a concrete
two-layer model, with layer 0 the untouched other layer. -/
theorem pretrain_layer_local_and_ordered_witness :
    ((0 : ℕ) ≠ 1 ∧ (1 : ℕ) ≤ 2 ∧ 1 < wParamsQ.layers.length) ∧
    ((pretrainStep wPreG (1 / 2) 1 0 wParamsQ).layers.getD 0 (daZero ℚ) =
        wParamsQ.layers.getD 0 (daZero ℚ) ∧
     (pretrainStep wPreG (1 / 2) 1 0 wParamsQ).logW = wParamsQ.logW ∧
     (pretrainStep wPreG (1 / 2) 1 0 wParamsQ).logb = wParamsQ.logb ∧
     (pretrainStep wPreG (1 / 2) 1 0 wParamsQ).layers.getD 1 (daZero ℚ) =
       { W := fun r c => (wParamsQ.layers.getD 1 (daZero ℚ)).W r c
                  - (1 / 2) * wPreG.gW 1 0 wParamsQ r c
         b := fun h2 => (wParamsQ.layers.getD 1 (daZero ℚ)).b h2
                  - (1 / 2) * wPreG.gb 1 0 wParamsQ h2
         b_prime := fun k => (wParamsQ.layers.getD 1 (daZero ℚ)).b_prime k
                  - (1 / 2) * wPreG.gb_prime 1 0 wParamsQ k } ∧
     ((0 : ℕ) < 1 →
       (pretrainUpTo wPreG (1 / 2) 1 1 1 wParamsQ).layers.getD 0 (daZero ℚ) =
         (pretrainAll wPreG (1 / 2) 1 1 2 wParamsQ).layers.getD 0 (daZero ℚ))) :=
  ⟨⟨by decide, by decide, by decide⟩,
    pretrain_layer_local_and_ordered wPreG (1 / 2) 1 1 2 1 0 0 wParamsQ
      (by decide) (by decide) (by decide)⟩

theorem ftBody_counting (e n : ℕ) (l : List ℕ) :
    ftBody countingDyn 1 1 1 e 0 { θ := n, es := esAfterFirst, updLog := l } =
      { θ := n + 1, es := esAfterFirst, updLog := l ++ [e] } := by
  have hes : ∀ it, earlyStopUpdate it 1 0 esAfterFirst = esAfterFirst := by
    intro it
    unfold earlyStopUpdate
    rw [if_neg (by decide)]
  have hr1 : List.range 1 = [0] := rfl
  simp [ftBody, validation_frequency, patience_init, countingDyn, qmean,
        hr1, hes]

theorem ftEpoch_counting (e : ℕ) (n : ℕ) (l : List ℕ) :
    ftEpoch countingDyn 1 1 1 e [0]
        { θ := n, es := esAfterFirst, updLog := l } =
      { θ := n + 1, es := esAfterFirst, updLog := l ++ [e] } := by
  rw [ftEpoch, ftBody_counting]
  split
  · rfl
  · rw [ftEpoch]

theorem ftBody_counting_first (n : ℕ) (l : List ℕ) :
    ftBody countingDyn 1 1 1 0 0 { θ := n, es := esInit, updLog := l } =
      { θ := n + 1, es := esAfterFirst, updLog := l ++ [0] } := by
  have hes : earlyStopUpdate 0 1 0 esInit = esAfterFirst := by decide
  have hr1 : List.range 1 = [0] := rfl
  simp [ftBody, validation_frequency, patience_init, countingDyn, qmean,
        hr1, hes]

theorem ftEpoch_counting_first (n : ℕ) (l : List ℕ) :
    ftEpoch countingDyn 1 1 1 0 [0] { θ := n, es := esInit, updLog := l } =
      { θ := n + 1, es := esAfterFirst, updLog := l ++ [0] } := by
  rw [ftEpoch, ftBody_counting_first]
  split
  · rfl
  · rw [ftEpoch]

theorem ftRun_counting (e : ℕ) (he : 1 ≤ e) :
    ftRun countingDyn 1 1 1 e 0 =
      { θ := e, es := esAfterFirst, updLog := List.range e } := by
  induction e, he using Nat.le_induction with
  | base =>
    unfold ftRun
    rw [show List.range 1 = [0] from rfl, List.foldl_cons, List.foldl_nil,
        ftEpoch_counting_first]
    rfl
  | succ e he ih =>
    unfold ftRun at ih ⊢
    rw [show List.range 1 = [0] from rfl] at ih ⊢
    rw [List.range_succ, List.foldl_append, ih, List.foldl_cons, List.foldl_nil,
        ftEpoch_counting]

/-- C1: refuted on the code.  The `break` guarding `patience <= iter` exits
only the inner minibatch loop, so fine-tuning does not stop once
`iter >= patience`: run with one training minibatch per epoch
(`n_train_batches = 1`, so `iter = epoch`) and 10002 training epochs under
`countingDyn` (constant validation loss, so patience stays at its initial
10000); the ghost log shows `train_model` is still called at
`iter = 10001 > 10000 = patience`, one update in every epoch after the break
condition first held at `iter = 10000`. -/
theorem finetune_break_exits_only_inner_loop :
    (ftRun countingDyn 1 1 1 10002 0).updLog = List.range 10002 ∧
    (ftRun countingDyn 1 1 1 10002 0).es.patience = 10000 ∧
    10000 ∈ (ftRun countingDyn 1 1 1 10002 0).updLog ∧
    10001 ∈ (ftRun countingDyn 1 1 1 10002 0).updLog := by
  have h := ftRun_counting 10002 (by norm_num)
  have hlog : (ftRun countingDyn 1 1 1 10002 0).updLog = List.range 10002 := by
    rw [h]
  refine ⟨hlog, ?_, ?_, ?_⟩
  · rw [h]
    rfl
  · rw [hlog]
    exact List.mem_range.mpr (by norm_num)
  · rw [hlog]
    exact List.mem_range.mpr (by norm_num)

/-- C2: one invocation of the early-stopping controller at iteration `iter`
with mean validation error `v` and current mean test error `t`: when `v`
beats `best_validation_loss` and is also below
`best_validation_loss * improvement_threshold`, patience becomes
`max(patience, iter * patience_increase)` (and is otherwise unchanged);
whenever `v` beats the best, the best loss, the best iteration and the
test score at best are set to `v`, `iter` and the freshly computed `t`;
otherwise the controller state does not change. -/
theorem early_stopping_controller_update (s : ESState) (iter : ℕ) (v t : ℚ) :
    (vBetter v s.best_validation_loss = true →
      ((vSignif v s.best_validation_loss = true →
         (earlyStopUpdate iter v t s).patience =
           max s.patience (iter * patience_increase)) ∧
       (vSignif v s.best_validation_loss = false →
         (earlyStopUpdate iter v t s).patience = s.patience) ∧
       (earlyStopUpdate iter v t s).best_validation_loss = some v ∧
       (earlyStopUpdate iter v t s).best_iter = some iter ∧
       (earlyStopUpdate iter v t s).test_score = t)) ∧
    (vBetter v s.best_validation_loss = false →
      earlyStopUpdate iter v t s = s) := by
  constructor
  · intro hb
    refine ⟨fun hs => ?_, fun hs => ?_, ?_, ?_, ?_⟩
    · simp [earlyStopUpdate, hb, hs]
    · simp [earlyStopUpdate, hb, hs]
    · simp [earlyStopUpdate, hb]
    · simp [earlyStopUpdate, hb]
    · simp [earlyStopUpdate, hb]
  · intro hb
    simp [earlyStopUpdate, hb]

/-- Witness for `early_stopping_controller_update`: best loss 1/2, validation
error 2/5 at iteration 7, test error 3/10. -/
theorem early_stopping_controller_update_witness :
    (vBetter (2/5) (ESState.mk 10000 (some (1/2)) none 0).best_validation_loss
        = true →
      ((vSignif (2/5) (ESState.mk 10000 (some (1/2)) none 0).best_validation_loss
          = true →
         (earlyStopUpdate 7 (2/5) (3/10)
             (ESState.mk 10000 (some (1/2)) none 0)).patience =
           max (ESState.mk 10000 (some (1/2)) none 0).patience
             (7 * patience_increase)) ∧
       (vSignif (2/5) (ESState.mk 10000 (some (1/2)) none 0).best_validation_loss
          = false →
         (earlyStopUpdate 7 (2/5) (3/10)
             (ESState.mk 10000 (some (1/2)) none 0)).patience =
           (ESState.mk 10000 (some (1/2)) none 0).patience) ∧
       (earlyStopUpdate 7 (2/5) (3/10)
           (ESState.mk 10000 (some (1/2)) none 0)).best_validation_loss
         = some (2/5) ∧
       (earlyStopUpdate 7 (2/5) (3/10)
           (ESState.mk 10000 (some (1/2)) none 0)).best_iter = some 7 ∧
       (earlyStopUpdate 7 (2/5) (3/10)
           (ESState.mk 10000 (some (1/2)) none 0)).test_score = 3/10)) ∧
    (vBetter (2/5) (ESState.mk 10000 (some (1/2)) none 0).best_validation_loss
        = false →
      earlyStopUpdate 7 (2/5) (3/10) (ESState.mk 10000 (some (1/2)) none 0) =
        ESState.mk 10000 (some (1/2)) none 0) :=
  early_stopping_controller_update (ESState.mk 10000 (some (1/2)) none 0) 7
    (2/5) (3/10)

/-- C10: every partition contributes `floor(n / batch_size)` minibatches;
the indices those minibatches read are exactly `0 .. n_batches n * batch_size - 1`,
which leaves out precisely the `n % batch_size` trailing examples; any index
at or past `n_batches n * batch_size` is read by no minibatch, so a trailing
partial batch enters neither training updates nor the validation or test
means (both average over `List.range (n_batches n)` batches only). -/
theorem minibatch_floor_partition (n k : ℕ) :
    n_batches n = n / batch_size ∧
    (k ∈ usedIndices n ↔ k < n_batches n * batch_size) ∧
    n_batches n * batch_size = n - n % batch_size ∧
    (n_batches n * batch_size ≤ k → k ∉ usedIndices n) := by
  have hmem : k ∈ usedIndices n ↔ k < n_batches n * batch_size := by
    simp only [usedIndices, n_batches, batch_size, batchSlice,
      List.mem_flatten, List.mem_map, List.mem_range]
    constructor
    · rintro ⟨s, ⟨i, hi, rfl⟩, hk⟩
      simp only [List.mem_map, List.mem_range] at hk
      obtain ⟨r, hr, rfl⟩ := hk
      omega
    · intro hk
      refine ⟨(List.range 20).map (fun r => k / 20 * 20 + r),
        ⟨k / 20, by omega, rfl⟩, ?_⟩
      simp only [List.mem_map, List.mem_range]
      exact ⟨k % 20, by omega, by omega⟩
  refine ⟨rfl, hmem, ?_, fun h hk => ?_⟩
  · simp only [n_batches, batch_size]
    omega
  · rw [hmem] at hk
    omega

/-- Witness for `minibatch_floor_partition`: a 30-example partition has one
minibatch of 20; index 25 sits in the trailing partial batch and is never
read. -/
theorem minibatch_floor_partition_witness :
    n_batches 30 = 30 / batch_size ∧
    (25 ∈ usedIndices 30 ↔ 25 < n_batches 30 * batch_size) ∧
    n_batches 30 * batch_size = 30 - 30 % batch_size ∧
    (n_batches 30 * batch_size ≤ 25 → 25 ∉ usedIndices 30) :=
  minibatch_floor_partition 30 25

theorem dA_mk_x (n_visible n_hidden : ℕ) (p : DAParams ℝ) (mask x : ℕ → ℝ) :
    (dA_mk n_visible n_hidden p mask x).x = x := rfl

theorem dA_mk_hidden_values (n_visible n_hidden : ℕ) (p : DAParams ℝ)
    (mask x : ℕ → ℝ) :
    (dA_mk n_visible n_hidden p mask x).hidden_values =
      encode n_visible p x := rfl

theorem dA_mk_y (n_visible n_hidden : ℕ) (p : DAParams ℝ) (mask x : ℕ → ℝ) :
    (dA_mk n_visible n_hidden p mask x).y =
      encode n_visible p (corrupt mask x) := rfl

theorem dA_mk_L (n_visible n_hidden : ℕ) (p : DAParams ℝ) (mask x : ℕ → ℝ) :
    (dA_mk n_visible n_hidden p mask x).L =
      bce n_visible x
        (decode n_hidden p (encode n_visible p (corrupt mask x))) := rfl

theorem sdaChain_getD_succ_x (specs : List LayerSpec) :
    ∀ (x0 : ℕ → ℝ) (i : ℕ), i + 1 < specs.length →
      ((sdaChain x0 specs).getD (i + 1) junkGraph).x =
        ((sdaChain x0 specs).getD i junkGraph).hidden_values := by
  induction specs with
  | nil => intro x0 i h; simp at h
  | cons s rest ih =>
    intro x0 i h
    cases i with
    | zero =>
      cases rest with
      | nil => simp at h
      | cons s2 r2 =>
        simp only [sdaChain, List.getD_cons_succ, List.getD_cons_zero]
        rw [dA_mk_x]
    | succ i =>
      simp only [sdaChain, List.getD_cons_succ]
      exact ih _ i (by simpa using h)

theorem sdaChain_getD_graph (specs : List LayerSpec) :
    ∀ (x0 : ℕ → ℝ) (i : ℕ), i < specs.length →
      (sdaChain x0 specs).getD i junkGraph =
        dA_mk (specs.getD i junkSpec).n_visible (specs.getD i junkSpec).n_hidden
          (specs.getD i junkSpec).params (specs.getD i junkSpec).mask
          (((sdaChain x0 specs).getD i junkGraph).x) := by
  induction specs with
  | nil => intro x0 i h; simp at h
  | cons s rest ih =>
    intro x0 i h
    cases i with
    | zero =>
      simp only [sdaChain, List.getD_cons_zero]
      rw [dA_mk_x]
    | succ i =>
      simp only [sdaChain, List.getD_cons_succ]
      exact ih _ i (by simpa using h)

theorem getLastD_irrel {β : Type} (t : List β) (a d d2 : β) :
    (a :: t).getLastD d = (a :: t).getLastD d2 := by
  cases t with
  | nil => rfl
  | cons c t2 => simp only [List.getLastD_cons]

theorem sdaChain_last_hidden (specs : List LayerSpec) :
    ∀ x0, specs ≠ [] →
      ((sdaChain x0 specs).getLastD junkGraph).hidden_values =
        forwardSpec x0 specs := by
  induction specs with
  | nil => intro x0 hne; exact absurd rfl hne
  | cons s rest ih =>
    intro x0 _
    cases rest with
    | nil =>
      show ((sdaChain x0 [s]).getLastD junkGraph).hidden_values =
        forwardSpec x0 [s]
      rw [show sdaChain x0 [s] =
            [dA_mk s.n_visible s.n_hidden s.params s.mask x0] from rfl,
          List.getLastD_cons, List.getLastD_nil, dA_mk_hidden_values]
      rfl
    | cons s2 r2 =>
      have e1 : sdaChain x0 (s :: s2 :: r2) =
          dA_mk s.n_visible s.n_hidden s.params s.mask x0 ::
            sdaChain (dA_mk s.n_visible s.n_hidden s.params s.mask
              x0).hidden_values (s2 :: r2) := rfl
      have e2 : sdaChain (dA_mk s.n_visible s.n_hidden s.params s.mask
            x0).hidden_values (s2 :: r2) =
          dA_mk s2.n_visible s2.n_hidden s2.params s2.mask
            (dA_mk s.n_visible s.n_hidden s.params s.mask x0).hidden_values ::
            sdaChain (dA_mk s2.n_visible s2.n_hidden s2.params s2.mask
              (dA_mk s.n_visible s.n_hidden s.params s.mask
                x0).hidden_values).hidden_values r2 := rfl
      rw [e1, List.getLastD_cons, e2,
          getLastD_irrel _ _ _ junkGraph, ← e2, ih _ (by simp),
          dA_mk_hidden_values,
          show forwardSpec x0 (s :: s2 :: r2) =
            forwardSpec (encode s.n_visible s.params x0) (s2 :: r2) from rfl]

/-- C5: the stacked model's forward pass is strictly sequential: layer 0
reads the raw input, layer `i+1` reads layer `i`'s clean hidden
representation `sigmoid(x·W + b)` computed on that layer's own uncorrupted
input (the corrupted encoding `y` exists only as the layer's internal
training signal), and the classification layer reads the last layer's clean
hidden representation, which equals the specification's `forward`
recursion. -/
theorem sda_forward_sequential (specs : List LayerSpec) (x0 : ℕ → ℝ) (i : ℕ)
    (h : i + 1 < specs.length) :
    ((sdaChain x0 specs).getD (i + 1) junkGraph).x =
        ((sdaChain x0 specs).getD i junkGraph).hidden_values ∧
    ((sdaChain x0 specs).getD i junkGraph).hidden_values =
        encode (specs.getD i junkSpec).n_visible (specs.getD i junkSpec).params
          (((sdaChain x0 specs).getD i junkGraph).x) ∧
    ((sdaChain x0 specs).getD i junkGraph).y =
        encode (specs.getD i junkSpec).n_visible (specs.getD i junkSpec).params
          (corrupt (specs.getD i junkSpec).mask
            (((sdaChain x0 specs).getD i junkGraph).x)) ∧
    ((sdaChain x0 specs).getD 0 junkGraph).x = x0 ∧
    sdaLogInput x0 specs = forwardSpec x0 specs := by
  have hi : i < specs.length := by omega
  have hne : specs ≠ [] := by
    intro hcon
    rw [hcon] at h
    simp at h
  refine ⟨sdaChain_getD_succ_x specs x0 i h, ?_, ?_, ?_,
    sdaChain_last_hidden specs x0 hne⟩
  · conv_lhs => rw [sdaChain_getD_graph specs x0 i hi]
    rw [dA_mk_hidden_values]
  · conv_lhs => rw [sdaChain_getD_graph specs x0 i hi]
    rw [dA_mk_y]
  · cases specs with
    | nil => exact absurd rfl hne
    | cons s rest =>
      rw [show sdaChain x0 (s :: rest) =
            dA_mk s.n_visible s.n_hidden s.params s.mask x0 ::
              sdaChain (dA_mk s.n_visible s.n_hidden s.params s.mask
                x0).hidden_values rest from rfl,
          List.getD_cons_zero, dA_mk_x]

/-- Witness for `sda_forward_sequential` at a concrete two-layer stack. -/
theorem sda_forward_sequential_witness :
    ((sdaChain wx0 wSpecs).getD (0 + 1) junkGraph).x =
        ((sdaChain wx0 wSpecs).getD 0 junkGraph).hidden_values ∧
    ((sdaChain wx0 wSpecs).getD 0 junkGraph).hidden_values =
        encode (wSpecs.getD 0 junkSpec).n_visible (wSpecs.getD 0 junkSpec).params
          (((sdaChain wx0 wSpecs).getD 0 junkGraph).x) ∧
    ((sdaChain wx0 wSpecs).getD 0 junkGraph).y =
        encode (wSpecs.getD 0 junkSpec).n_visible (wSpecs.getD 0 junkSpec).params
          (corrupt (wSpecs.getD 0 junkSpec).mask
            (((sdaChain wx0 wSpecs).getD 0 junkGraph).x)) ∧
    ((sdaChain wx0 wSpecs).getD 0 junkGraph).x = wx0 ∧
    sdaLogInput wx0 wSpecs = forwardSpec wx0 wSpecs :=
  sda_forward_sequential wSpecs wx0 0 (by norm_num [wSpecs])

/-- C6: for every input batch (with its per-example corruption masks), the
layer's cost is the batch mean of the per-example summed binary
cross-entropy measured against the uncorrupted input `x`, where the
reconstruction `z = decode(encode_corrupted(x))` is computed from the
corrupted input; per example, the source's `L` is exactly that
cross-entropy. -/
theorem da_cost_is_reconstruction_loss (n_visible n_hidden : ℕ)
    (p : DAParams ℝ) (mask x : ℕ → ℝ)
    (batch : List ((ℕ → ℝ) × (ℕ → ℝ))) :
    (dA_mk n_visible n_hidden p mask x).L =
        bce n_visible x
          (decode n_hidden p (encode n_visible p (corrupt mask x))) ∧
    dA_cost n_visible n_hidden p batch =
        reconstruction_loss n_visible n_hidden p batch := by
  refine ⟨dA_mk_L n_visible n_hidden p mask x, ?_⟩
  unfold dA_cost reconstruction_loss
  simp only [dA_mk_L]

/-- C7: the decode weight matrix is a derived view, not stored state: after
any fine-tuning step and after any pretraining step, `W_prime` of every
layer equals the transpose of that layer's current `W`, and the
reconstruction `z` is computed through exactly this view of the current
encode weights. -/
theorem tied_weights_derived_view {α : Type} [Ring α] (g : FineGrads α)
    (pg : PreGrads α) (lr plr : α) (i m ℓ r c : ℕ) (p : SdAParams α)
    (q : DAParams ℝ) (nv nh : ℕ) (mask x : ℕ → ℝ) (k : ℕ) :
    dAWprime ((fineTuneStep g lr m p).layers.getD ℓ (daZero α)) r c =
        ((fineTuneStep g lr m p).layers.getD ℓ (daZero α)).W c r ∧
    dAWprime ((pretrainStep pg plr i m p).layers.getD ℓ (daZero α)) r c =
        ((pretrainStep pg plr i m p).layers.getD ℓ (daZero α)).W c r ∧
    (dA_mk nv nh q mask x).z k =
        sigmoid (dotR nh (dA_mk nv nh q mask x).y (fun j => dAWprime q j k)
          + q.b_prime k) :=
  ⟨rfl, rfl, rfl⟩

/-- C8: constructing the stacked model with an empty `hidden_layers_sizes`
list fails at construction time with the configuration error, and
construction succeeds for every non-empty list of hidden layer sizes. -/
theorem sda_init_empty_fails_nonempty_succeeds (n_ins n_outs : ℕ)
    (hs : List ℕ) (h : hs ≠ []) :
    SdA_init n_ins [] n_outs = .error .ConfigurationError ∧
    (SdA_init n_ins hs n_outs).isOk = true := by
  refine ⟨rfl, ?_⟩
  cases hs with
  | nil => exact absurd rfl h
  | cons a t =>
    rw [SdA_init, if_neg (by simp)]
    rfl

/-- Witness for `sda_init_empty_fails_nonempty_succeeds` at the source's own
configuration `n_ins = 784`, `hidden_layers_sizes = [500, 500, 500]`,
`n_outs = 10`. -/
theorem sda_init_witness :
    SdA_init 784 [] 10 = .error .ConfigurationError ∧
    (SdA_init 784 [500, 500, 500] 10).isOk = true :=
  sda_init_empty_fails_nonempty_succeeds 784 10 [500, 500, 500] (by decide)

/-- C9: the classification layer's error-rate operation fails with the
label-type error when the label dtype is not integral, fails with the shape
error when (for integral labels) the label vector's length differs from the
batch size of the input, and for integral labels of matching length returns
the mean zero-one loss `mean_i 1[argmax p(.|x_i) ≠ y_i]`. -/
theorem lr_errors_cases (n_in n_out : ℕ) (W : ℕ → ℕ → ℝ) (b : ℕ → ℝ)
    (X : List (ℕ → ℝ)) (yv : LabelVec) :
    (yv.dtypeIsInt = false →
      LR_errors n_in n_out W b X yv = .error .UnsupportedLabelType) ∧
    (yv.dtypeIsInt = true → yv.vals.length ≠ X.length →
      LR_errors n_in n_out W b X yv = .error .ShapeMismatch) ∧
    (yv.dtypeIsInt = true → yv.vals.length = X.length →
      LR_errors n_in n_out W b X yv =
        .ok (error_rate_spec n_in n_out W b X yv.vals)) := by
  refine ⟨fun h1 => ?_, fun h1 h2 => ?_, fun h1 h2 => ?_⟩
  · simp [LR_errors, h1]
  · simp [LR_errors, h1, h2]
  · simp [LR_errors, h1, h2, error_rate_spec, y_pred]

/-- Witness for `lr_errors_cases`: one example of dimension 1, two classes,
zero weights and bias, one integral label of matching length. -/
theorem lr_errors_cases_witness :
    (wLabels.dtypeIsInt = false →
      LR_errors 1 2 (fun _ _ => 0) (fun _ => 0) [wx0] wLabels =
        .error .UnsupportedLabelType) ∧
    (wLabels.dtypeIsInt = true → wLabels.vals.length ≠ [wx0].length →
      LR_errors 1 2 (fun _ _ => 0) (fun _ => 0) [wx0] wLabels =
        .error .ShapeMismatch) ∧
    (wLabels.dtypeIsInt = true → wLabels.vals.length = [wx0].length →
      LR_errors 1 2 (fun _ _ => 0) (fun _ => 0) [wx0] wLabels =
        .ok (error_rate_spec 1 2 (fun _ _ => 0) (fun _ => 0) [wx0]
          wLabels.vals)) :=
  lr_errors_cases 1 2 (fun _ _ => 0) (fun _ => 0) [wx0] wLabels
